import Mathlib

/-!
Verification of the multiple-filter change-point detector of this repository
(`elephant.multiple_filter_test`) and of the Butterworth filter dispatch of
`elephant/signal_processing.py`.

The module `elephant/multiple_filter_test.py` itself is not present in the
repository snapshot; only its test suite (`elephant/test/test_mft.py`) is.
The detector is therefore modelled from the specification, with every
concrete numeric fixture taken from the in-repository tests, which are the
authoritative code wherever the specification and the tests disagree.

Modelling conventions:
* Timestamps, durations and all statistic arithmetic are exact rationals.
* The filter statistic `(n_r - n_l) / sqrt(denSq)` is represented by the pair
  `FilterValue` of its numerator `n_r - n_l` and the radicand `denSq` of its
  denominator; its real value is `FilterValue.val`.  All magnitude
  comparisons of statistic values (maxima, threshold crossings) are done on
  `absSq`, the square of the absolute statistic value, which is
  order-isomorphic to comparing the nonnegative absolute values themselves.
* Randomness of the surrogate calibration is the ambient random stream: the
  calibrator receives a function `draw : ℕ → List ℚ` giving the event times
  of each surrogate.  The tests seed numpy's global generator
  (`np.random.seed(13)`) and `multiple_filter_test` takes no seed argument,
  so the stream is an input of the computation, not an internal detail.
-/

/-- Inter-event intervals: differences of consecutive timestamps. -/
def isiList (l : List ℚ) : List ℚ :=
  List.zipWith (fun a b => a - b) l.tail l

/-- Sample mean of a list (0 on the empty list, as the callers guard length). -/
def listMean (l : List ℚ) : ℚ :=
  l.sum / l.length

/-- Population variance of a list (denominator `n`, matching `np.var`). -/
def listVar (l : List ℚ) : ℚ :=
  ((l.map fun x => (x - listMean l) ^ 2).sum) / l.length

/-- Events of the sequence falling in the half-open window `[a, b)`. -/
def windowEvents (spk : List ℚ) (a b : ℚ) : List ℚ :=
  spk.filter fun s => decide (a ≤ s ∧ s < b)

/-- A statistic value `num / sqrt denSq`, kept as the exact rational pair of
its numerator and the radicand of its denominator. -/
structure FilterValue where
  num : ℚ
  denSq : ℚ
deriving DecidableEq, Repr

/-- The real number denoted by a `FilterValue`. -/
noncomputable def FilterValue.val (v : FilterValue) : ℝ :=
  (v.num : ℝ) / Real.sqrt (v.denSq : ℝ)

/-- A `FilterValue` denotes a finite float exactly when its radicand is
positive (radicand `0` gives a division by zero, i.e. `inf`/`nan`;
a negative radicand gives `nan`). -/
def FilterValue.isFinite (v : FilterValue) : Prop :=
  0 < v.denSq

instance (v : FilterValue) : Decidable v.isFinite := by
  unfold FilterValue.isFinite; infer_instance

/-- Modelled from the spec: `StatisticEngine.statistic` (the numeric core of
the missing `multiple_filter_test._filter`, after unit validation).  Right
half-window `[t, t+h)`, left half-window `[t-h, t)`; within each, the sample
mean and population variance of consecutive inter-event intervals; result
`(n_r - n_l) / sqrt(0.5*(var_r/mean_r^3) + 0.5*(var_l/mean_l^3))`.  The
half-window coefficients are plain `0.5`, as fixed by the in-repository
fixtures of `FilterTestCase` and `FilterProcessTestCase` (spec section 8); a
half-window with fewer than two events makes the statistic exactly `0`, as
fixed by `test_filter_with_spiketrain_h025`. -/
def statistic (spk : List ℚ) (t h : ℚ) : FilterValue :=
  let riW := windowEvents spk t (t + h)
  let leW := windowEvents spk (t - h) t
  if riW.length < 2 ∨ leW.length < 2 then ⟨0, 1⟩
  else
    let vr := listVar (isiList riW)
    let mr := listMean (isiList riW)
    let vl := listVar (isiList leW)
    let ml := listMean (isiList leW)
    ⟨(riW.length : ℚ) - (leW.length : ℚ),
      vr / mr ^ 3 * (1 / 2) + vl / ml ^ 3 * (1 / 2)⟩

/-- The event fixture of `FilterTestCase` (seconds). -/
def fixtureA : List ℚ :=
  [2/5, 1/2, 13/20, 7/10, 9/10, 23/20, 6/5, 19/10]

/-- The event fixture of `FilterProcessTestCase` and
`MultipleFilterAlgorithmTestCase` (seconds). -/
def fixtureB : List ℚ :=
  [11/10, 6/5, 7/5, 8/5, 17/10, 7/4, 9/5, 37/20, 19/10, 39/20]

/-- The squared absolute value `|num / sqrt denSq|^2 = num^2 / denSq` of a
statistic value, the exact-rational proxy on which all magnitude comparisons
are made.  A nonpositive radicand denotes a non-finite float, which the spec
(section 7) directs the scanner and detector to treat as never crossing the
threshold; it is therefore mapped to `0`. -/
def absSq (v : FilterValue) : ℚ :=
  if v.denSq ≤ 0 then 0 else v.num ^ 2 / v.denSq

/-- Whether a scanned point's statistic magnitude strictly exceeds the
critical value; `cSq` is the squared critical value. -/
def aboveB (cSq : ℚ) (p : ℚ × FilterValue) : Bool :=
  decide (cSq < absSq p.2)

/-- Of two scanned points, the one with the larger statistic magnitude,
keeping the earlier one on ties. -/
def pickBest (a b : ℚ × FilterValue) : ℚ × FilterValue :=
  if absSq a.2 < absSq b.2 then b else a

mutual

/-- Modelled from the spec: the change-point extraction loop of the missing
`ChangePointDetector` (spec section 4.4): scan the process in time order and,
for each maximal contiguous run where the statistic magnitude exceeds the
critical value, emit one change point at the time of the extremum within that
run. -/
def scanCPs (cSq : ℚ) : List (ℚ × FilterValue) → List ℚ
  | [] => []
  | p :: ps => if aboveB cSq p then inRun cSq p ps else scanCPs cSq ps

/-- State of the extraction loop while inside an excursion: `best` is the
extremal point seen so far in the current run. -/
def inRun (cSq : ℚ) (best : ℚ × FilterValue) : List (ℚ × FilterValue) → List ℚ
  | [] => [best.1]
  | p :: ps =>
    if aboveB cSq p then inRun cSq (pickBest best p) ps
    else best.1 :: scanCPs cSq ps

end

/-- Number of candidate times in the scanning grid: the arithmetic sequence
`h, h + dt, h + 2*dt, ...` clipped so that both half-windows stay inside
`[0, T]` (spec section 3); empty for a nonpositive step or when no candidate
fits. -/
def gridCount (T h dt : ℚ) : ℕ :=
  if dt ≤ 0 ∨ T < 2 * h then 0 else (⌊(T - 2 * h) / dt⌋).toNat + 1

/-- The grid of candidate times for window width `h`. -/
def timeGrid (T h dt : ℚ) : List ℚ :=
  (List.range (gridCount T h dt)).map fun (k : ℕ) => h + (k : ℚ) * dt

/-- Modelled from the spec: `ProcessScanner.scan` (spec section 4.2):
evaluate the statistic at each grid time, returning the ordered list of
`(t, value)` pairs.  The empirical standardization matrix that the test
`FilterProcessTestCase` additionally passes to the missing
`_filter_process` is not part of the specified scanner and is not modelled. -/
def scan (spk : List ℚ) (h : ℚ) (grid : List ℚ) : List (ℚ × FilterValue) :=
  grid.map fun t => (t, statistic spk t h)

/-- The scanner with the grid built from `(T, h, dt)`, as the detector and
the calibrator invoke it. -/
def _filter_process (dt h : ℚ) (spk : List ℚ) (T : ℚ) : List (ℚ × FilterValue) :=
  scan spk h (timeGrid T h dt)

/-- Modelled from the spec: the per-surrogate global extreme of the missing
`SurrogateCalibrator` (spec section 4.3): for each window width, the maximum
statistic magnitude over that width's scanned grid, accumulated across all
widths (squared magnitudes, base `0`). -/
def surrogateExtreme (windowWidths : List ℚ) (dt T : ℚ) (spk : List ℚ) : ℚ :=
  windowWidths.foldl
    (fun acc h => (_filter_process dt h spk T).foldl (fun m p => max m (absSq p.2)) acc) 0

/-- Modelled from the spec: `SurrogateCalibrator.calibrate` (spec section
4.3).  The surrogate event sequences themselves are drawn from the ambient
random stream, which is abstracted as the input `draw : ℕ → List ℚ` giving
the `i`-th surrogate's event times (the missing module consumes numpy's
global generator, seeded externally by the tests; the spec leaves the draw
mechanism open between uniform order statistics and exponential gaps).
Collect the `nSurrogates` global extrema, sort ascending, and return the
element at rank `ceil(nSurrogates * (1 - alpha/100)) - 1`, `alpha` being a
percentage.  The returned scalar is the squared critical value. -/
def calibrate (windowWidths : List ℚ) (T alpha : ℚ) (nSurrogates : ℕ) (dt : ℚ)
    (draw : ℕ → List ℚ) : ℚ :=
  let extrema := (List.range nSurrogates).map fun i =>
    surrogateExtreme windowWidths dt T (draw i)
  let sorted := extrema.mergeSort fun a b => decide (a ≤ b)
  sorted.getD ((⌈(nSurrogates : ℚ) * (1 - alpha / 100)⌉).toNat - 1) 0

/-- Modelled from the spec: `multiple_filter_test` /
`ChangePointDetector.detect` (spec sections 4.4 and 6): calibrate a single
critical value across all window widths, then scan the real data once per
window width and extract that width's change points independently; the
ambient random stream `draw` is consumed only by the calibration step. -/
def multiple_filter_test (windowWidths : List ℚ) (spk : List ℚ) (T alpha : ℚ)
    (nSurrogates : ℕ) (dt : ℚ) (draw : ℕ → List ℚ) : List (List ℚ) :=
  let cSq := calibrate windowWidths T alpha nSurrogates dt draw
  windowWidths.map fun h => scanCPs cSq (_filter_process dt h spk T)

/-- A time-like scalar argument as it reaches the boundary: either a
quantity carrying the time dimension (seconds) or a bare number. -/
inductive TimeArg where
  | timed (q : ℚ)
  | bare (q : ℚ)
deriving DecidableEq, Repr

/-- An event-sequence argument as it reaches the boundary: a domain event
container with explicit bounds and a time unit (`neo.SpikeTrain`), a bare
unit-tagged array (`pq.Quantity`), or a raw numeric array. -/
inductive SeqArg where
  | spiketrain (ts : List ℚ) (tstop : ℚ)
  | quantity (ts : List ℚ)
  | raw (ts : List ℚ)
deriving DecidableEq, Repr

/-- The two validation error kinds of spec section 7. -/
inductive MftError where
  | invalidUnit
  | invalidInput
deriving DecidableEq, Repr

/-- Whether a time-like argument is a bare (non-time-typed) number. -/
def TimeArg.isBare : TimeArg → Bool
  | .bare _ => true
  | .timed _ => false

/-- The rational magnitude of a time-like argument. -/
def TimeArg.mag : TimeArg → ℚ
  | .bare q => q
  | .timed q => q

/-- Whether a sequence argument carries time-dimension typing. -/
def SeqArg.isTimed : SeqArg → Bool
  | .raw _ => false
  | _ => true

/-- The timestamps of a sequence argument. -/
def SeqArg.events : SeqArg → List ℚ
  | .spiketrain ts _ => ts
  | .quantity ts => ts
  | .raw ts => ts

/-- Modelled from the spec: the missing `multiple_filter_test._filter` with
its fail-fast validation (spec sections 4.1 and 7): a raw numeric sequence is
rejected as `InvalidInput`; a bare `t` or `h` against a time-typed sequence
is rejected as `InvalidUnit`; both checks precede all computation, so an
error call commits no work and yields no partial result. -/
def _filter (t h : TimeArg) (seq : SeqArg) : Except MftError FilterValue :=
  match seq with
  | .raw _ => .error .invalidInput
  | _ =>
    if t.isBare ∨ h.isBare then .error .invalidUnit
    else .ok (statistic seq.events t.mag h.mag)

/-- A nonempty contiguous block of consecutive above-threshold points of a
process that is maximal: the point just before it (if any) and the point
just after it (if any) are not above threshold.  This is the "maximal
contiguous run where the statistic magnitude exceeds the critical value" of
spec section 4.4. -/
def IsMaxRun (cSq : ℚ) (proc run : List (ℚ × FilterValue)) : Prop :=
  run ≠ [] ∧ (∀ p ∈ run, aboveB cSq p = true) ∧
    ∃ pre post, proc = pre ++ run ++ post ∧
      (∀ q ∈ pre.getLast?, aboveB cSq q = false) ∧
      (∀ q ∈ post.head?, aboveB cSq q = false)

/-- The statistic exactly as claim C1 words it: the same counts, means and
variances, but with half-window-by-width coefficients `0.5 * h` in the
radicand of the denominator. -/
def c1Statistic (spk : List ℚ) (t h : ℚ) : FilterValue :=
  let riW := windowEvents spk t (t + h)
  let leW := windowEvents spk (t - h) t
  let vr := listVar (isiList riW)
  let mr := listMean (isiList riW)
  let vl := listVar (isiList leW)
  let ml := listMean (isiList leW)
  ⟨(riW.length : ℚ) - (leW.length : ℚ),
    1 / 2 * h * (vr / mr ^ 3) + 1 / 2 * h * (vl / ml ^ 3)⟩

/-- The statistic as the amended claim C1 words it: identical to
`c1Statistic` except that the two coefficients are plain `0.5`, without the
window-width factor. -/
def c1AmendedStatistic (spk : List ℚ) (t h : ℚ) : FilterValue :=
  let riW := windowEvents spk t (t + h)
  let leW := windowEvents spk (t - h) t
  let vr := listVar (isiList riW)
  let mr := listMean (isiList riW)
  let vl := listVar (isiList leW)
  let ml := listMean (isiList leW)
  ⟨(riW.length : ℚ) - (leW.length : ℚ),
    1 / 2 * (vr / mr ^ 3) + 1 / 2 * (vl / ml ^ 3)⟩

/-- The Butterworth design band type chosen by
`signal_processing._design_butterworth_filter`. -/
inductive BType where
  | bandpass
  | bandstop
  | lowpass
  | highpass
deriving DecidableEq, Repr

/-- Python truthiness of an optional cut-off frequency, as used by the
`if lpfreq and hpfreq:` dispatch: `None` and `0` are falsy. -/
def truthy : Option ℚ → Bool
  | none => false
  | some q => decide (q ≠ 0)

/-- The data computed by `_design_butterworth_filter` and handed to
`scipy.signal.butter` (an external delegation, kept as data): the filter
order, the band type, and the normalized edge frequencies. -/
structure FilterDesign where
  order : ℕ
  btype : BType
  wn1 : ℚ
  wn2 : Option ℚ
deriving DecidableEq, Repr

/-- `signal_processing.butter._design_butterworth_filter`, translated from
`src/elephant/signal_processing.py` lines 179-203: the filter type is chosen
from the truthiness of the two cut-off frequencies, and when both are absent
a `ValueError` is raised. -/
def _design_butterworth_filter (Fs : ℚ) (hpfreq lpfreq : Option ℚ) (order : ℕ) :
    Except String FilterDesign :=
  let Fn := Fs / 2
  if truthy lpfreq && truthy hpfreq then
    let hp := hpfreq.getD 0
    let lp := lpfreq.getD 0
    if hp < lp then .ok ⟨order, .bandpass, hp / Fn, some (lp / Fn)⟩
    else .ok ⟨order, .bandstop, lp / Fn, some (hp / Fn)⟩
  else if truthy lpfreq then .ok ⟨order, .lowpass, lpfreq.getD 0 / Fn, none⟩
  else if truthy hpfreq then .ok ⟨order, .highpass, hpfreq.getD 0 / Fn, none⟩
  else .error "Either highpass_freq or lowpass_freq must be given"

/-- `signal_processing.butter`, translated from
`src/elephant/signal_processing.py` lines 136-235 for a one-dimensional
signal: the filter is designed first, then the data is filtered with
`scipy.signal.lfilter` or `scipy.signal.filtfilt` according to
`filter_function`.  The two scipy routines are external delegations and are
taken as function arguments; the unit-rescaling of `Quantity` inputs is the
out-of-scope adapter layer and is not modelled. -/
def butter (lfilterF filtfiltF : FilterDesign → List ℚ → List ℚ)
    (signal : List ℚ) (highpass_freq lowpass_freq : Option ℚ) (order : ℕ)
    (filter_function : String) (fs : ℚ) : Except String (List ℚ) := do
  let ba ← _design_butterworth_filter fs highpass_freq lowpass_freq order
  if filter_function = "lfilter" then pure (lfilterF ba signal)
  else if filter_function = "filtfilt" then pure (filtfiltF ba signal)
  else .error "filter_func must to be either 'filtfilt' or 'lfilter'"


theorem val_mk (a b : ℚ) : (FilterValue.mk a b).val = (a : ℝ) / Real.sqrt (b : ℝ) := rfl

theorem val_zero_one : (FilterValue.mk 0 1).val = 0 := by
  rw [val_mk]; norm_num

/-- C5: for the `FilterTestCase` events with `t = 0.8 s` and `h = 0.5 s`,
the statistic equals `(3-4)/sqrt(0.5*(sigma_r/mu_r^3) + 0.5*(sigma_l/mu_l^3))`
with the sample moments spelled out by the claim (exactly, hence in
particular to 9 decimal places). -/
theorem c5_statistic_value :
    (statistic fixtureA (4/5) (1/2)).val =
      ((3 : ℝ) - 4) / Real.sqrt
        ((1/2) * ((((0.25 - 0.15)^2 + (0.05 - 0.15)^2) / 2) / (((0.25 + 0.05) / 2)^3))
          + (1/2) * ((((0.1 - 0.1)^2 + (0.15 - 0.1)^2 + (0.05 - 0.1)^2) / 3)
              / (((0.1 + 0.15 + 0.05) / 3)^3))) := by
  have h1 : statistic fixtureA (4/5) (1/2) = ⟨-1, 125/54⟩ := by
    with_unfolding_all decide
  rw [h1, val_mk]
  norm_num

/-- C7: for the `FilterTestCase` events with `t = 0.8 s` and `h = 0.25 s`,
the right half-window `[0.8, 1.05)` holds a single event and the statistic
is exactly `0`. -/
theorem c7_statistic_zero :
    (windowEvents fixtureA (4/5) (4/5 + 1/4)).length = 1 ∧
      (statistic fixtureA (4/5) (1/4)).val = 0 := by
  refine ⟨by with_unfolding_all decide, ?_⟩
  have h1 : statistic fixtureA (4/5) (1/4) = ⟨0, 1⟩ := by
    with_unfolding_all decide
  rw [h1, val_zero_one]

/-- C6, counterexample: at the `FilterTestCase` events with `t = 0.8 s` and
`h = 0.25 s` the right half-window is degenerate (fewer than two events),
yet the statistic is the finite value `0`, not a non-finite value. -/
theorem c6_counterexample :
    (windowEvents fixtureA (4/5) (4/5 + 1/4)).length < 2 ∧
      (statistic fixtureA (4/5) (1/4)).isFinite ∧
      (statistic fixtureA (4/5) (1/4)).val = 0 := by
  refine ⟨by with_unfolding_all decide, by with_unfolding_all decide, ?_⟩
  have h1 : statistic fixtureA (4/5) (1/4) = ⟨0, 1⟩ := by
    with_unfolding_all decide
  rw [h1, val_zero_one]

/-- C1, counterexample: at the `FilterTestCase` events with `t = 0.8 s` and
`h = 0.5 s`, both half-windows hold at least two events, yet the statistic
differs from the claimed formula with its `0.5*h` coefficients (the
in-repository fixture fixes the coefficients to plain `0.5`, and at
`h = 0.5` the two denominators differ by a factor `sqrt 2`). -/
theorem c1_counterexample :
    2 ≤ (windowEvents fixtureA (4/5) (4/5 + 1/2)).length ∧
      2 ≤ (windowEvents fixtureA (4/5 - 1/2) (4/5)).length ∧
      (statistic fixtureA (4/5) (1/2)).val ≠ (c1Statistic fixtureA (4/5) (1/2)).val := by
  refine ⟨by with_unfolding_all decide, by with_unfolding_all decide, ?_⟩
  have h1 : statistic fixtureA (4/5) (1/2) = ⟨-1, 125/54⟩ := by
    with_unfolding_all decide
  have h2 : c1Statistic fixtureA (4/5) (1/2) = ⟨-1, 125/108⟩ := by
    with_unfolding_all decide
  rw [h1, h2, val_mk, val_mk]
  push_cast
  have hlt : Real.sqrt (125/108) < Real.sqrt (125/54) :=
    Real.sqrt_lt_sqrt (by norm_num) (by norm_num)
  have hpos : (0 : ℝ) < Real.sqrt (125/108) := Real.sqrt_pos.2 (by norm_num)
  have hdiv : (1 : ℝ) / Real.sqrt (125/54) < 1 / Real.sqrt (125/108) :=
    one_div_lt_one_div_of_lt hpos hlt
  have hneg : (-1 : ℝ) / Real.sqrt (125/108) < -1 / Real.sqrt (125/54) := by
    rw [neg_div, neg_div]
    exact neg_lt_neg hdiv
  exact ne_of_gt hneg

/-- C1, amended: whenever both half-windows hold at least two events, the
statistic equals `(n_r - n_l) / sqrt(0.5*(var_r/mean_r^3) +
0.5*(var_l/mean_l^3))` — the claimed formula without the window-width factor
in the radicand. -/
theorem c1_amended (spk : List ℚ) (t h : ℚ)
    (hr : 2 ≤ (windowEvents spk t (t + h)).length)
    (hl : 2 ≤ (windowEvents spk (t - h) t).length) :
    (statistic spk t h).val = (c1AmendedStatistic spk t h).val := by
  have hcond : ¬((windowEvents spk t (t + h)).length < 2 ∨
      (windowEvents spk (t - h) t).length < 2) := by omega
  unfold statistic c1AmendedStatistic
  simp only [if_neg hcond]
  congr 1
  simp only [FilterValue.mk.injEq]
  refine ⟨by trivial, by ring⟩

/-- Witness for `c1_amended` at the `FilterTestCase` fixture. -/
theorem c1_amended_witness :
    (statistic fixtureA (4/5) (1/2)).val = (c1AmendedStatistic fixtureA (4/5) (1/2)).val :=
  c1_amended fixtureA (4/5) (1/2) (by with_unfolding_all decide)
    (by with_unfolding_all decide)

/-- C10: calling `butter` with both cut-off frequencies absent fails with
the `ValueError` of `_design_butterworth_filter`, whatever the signal, the
order, the sampling rate, the `filter_function` string and the two scipy
filtering routines — in particular before any filtering touches the data. -/
theorem c10_butter_requires_freq
    (lfilterF filtfiltF : FilterDesign → List ℚ → List ℚ) (signal : List ℚ)
    (order : ℕ) (filter_function : String) (fs : ℚ) :
    butter lfilterF filtfiltF signal none none order filter_function fs
      = .error "Either highpass_freq or lowpass_freq must be given" := rfl

/-- C8: `_filter` fails with `InvalidUnit` whenever `t` or `h` is a bare
number while the sequence is time-typed, and with `InvalidInput` whenever
the sequence is a raw numeric array; in either case it returns an error and
hence no (partial) result. -/
theorem c8_validation (t h : TimeArg) (seq : SeqArg) :
    ((t.isBare = true ∨ h.isBare = true) → seq.isTimed = true →
        _filter t h seq = .error .invalidUnit) ∧
      (seq.isTimed = false → _filter t h seq = .error .invalidInput) ∧
      (∀ e : MftError, _filter t h seq = .error e → ∀ v, _filter t h seq ≠ .ok v) := by
  refine ⟨?_, ?_, ?_⟩
  · intro hb ht
    cases seq with
    | raw ts => simp [SeqArg.isTimed] at ht
    | spiketrain ts tstop => simp [_filter, if_pos hb]
    | quantity ts => simp [_filter, if_pos hb]
  · intro ht
    cases seq with
    | raw ts => rfl
    | spiketrain ts tstop => simp [SeqArg.isTimed] at ht
    | quantity ts => simp [SeqArg.isTimed] at ht
  · intro e he v
    rw [he]
    exact fun hcontra => Except.noConfusion hcontra

/-- Witness for `c8_validation`: a bare `t` against a time-typed spike train
is an `InvalidUnit` error, and a raw array sequence is an `InvalidInput`
error. -/
theorem c8_validation_witness :
    _filter (.bare (4/5)) (.timed (1/2)) (.spiketrain fixtureA 2)
        = .error .invalidUnit ∧
      _filter (.timed (4/5)) (.timed (1/2)) (.raw fixtureA)
        = .error .invalidInput :=
  ⟨(c8_validation (.bare (4/5)) (.timed (1/2)) (.spiketrain fixtureA 2)).1
      (Or.inl rfl) rfl,
    (c8_validation (.timed (4/5)) (.timed (1/2)) (.raw fixtureA)).2.1 rfl⟩

/-- C9, counterexample: `multiple_filter_test` takes no seed argument (the
tests seed numpy's global generator instead), so the calibration is a
function of the ambient random stream: with identical arguments, two
different ambient streams (one whose surrogates are empty, one whose
surrogates are the `FilterTestCase` events) yield different critical
values.  Reproducibility therefore does depend on ambient global
random-generator state, contrary to the claim. -/
theorem c9_counterexample :
    calibrate [1/2] 2 50 1 (3/10) (fun _ => []) = 0 ∧
      calibrate [1/2] 2 50 1 (3/10) (fun _ => fixtureA) = 25/36 ∧
      calibrate [1/2] 2 50 1 (3/10) (fun _ => [])
        ≠ calibrate [1/2] 2 50 1 (3/10) (fun _ => fixtureA) := by
  refine ⟨?_, ?_, ?_⟩ <;> with_unfolding_all decide

/-- C9, amended: randomness enters only through the surrogate draws consumed
by the calibration step; the calibrator is a pure function of its arguments
and of the ambient stream, and depends only on the `nSurrogates` draws it
actually consumes: two runs whose ambient streams agree on those draws
return the same critical value. -/
theorem c9_amended (windowWidths : List ℚ) (T alpha : ℚ) (nSurrogates : ℕ)
    (dt : ℚ) (draw draw' : ℕ → List ℚ)
    (hagree : ∀ i < nSurrogates, draw i = draw' i) :
    calibrate windowWidths T alpha nSurrogates dt draw
      = calibrate windowWidths T alpha nSurrogates dt draw' := by
  have hmap : ((List.range nSurrogates).map fun i =>
        surrogateExtreme windowWidths dt T (draw i))
      = (List.range nSurrogates).map fun i =>
        surrogateExtreme windowWidths dt T (draw' i) :=
    List.map_congr_left fun i hi => by rw [hagree i (List.mem_range.mp hi)]
  simp only [calibrate, hmap]

/-- Witness for `c9_amended`: two streams that agree on the single consumed
draw but differ beyond it calibrate identically. -/
theorem c9_amended_witness :
    calibrate [1/2] 2 50 1 (3/10) (fun i => if i = 0 then fixtureA else [])
      = calibrate [1/2] 2 50 1 (3/10) (fun i => if i = 0 then fixtureA else fixtureB) :=
  c9_amended [1/2] 2 50 1 (3/10) _ _ (by with_unfolding_all decide)

theorem scanCPs_nil (cSq : ℚ) : scanCPs cSq [] = [] := by
  rw [scanCPs]

theorem inRun_eq (cSq : ℚ) (l : List (ℚ × FilterValue)) : ∀ best,
    inRun cSq best l
      = (List.foldl pickBest best (l.takeWhile (aboveB cSq))).1
          :: scanCPs cSq (l.dropWhile (aboveB cSq)) := by
  induction l with
  | nil =>
    intro best
    rw [inRun]
    simp [scanCPs_nil]
  | cons p ps ih =>
    intro best
    by_cases hp : aboveB cSq p = true
    · rw [inRun, if_pos hp, ih (pickBest best p), List.takeWhile_cons, if_pos hp,
        List.dropWhile_cons, if_pos hp, List.foldl_cons]
    · have hp' : aboveB cSq p = false := Bool.not_eq_true _ |>.mp hp
      rw [inRun, if_neg (by simp [hp']), List.takeWhile_cons, if_neg (by simp [hp']),
        List.dropWhile_cons, if_neg (by simp [hp']), List.foldl_nil, scanCPs,
        if_neg (by simp [hp'])]

theorem scanCPs_cons_pos (cSq : ℚ) (p : ℚ × FilterValue)
    (ps : List (ℚ × FilterValue)) (hp : aboveB cSq p = true) :
    scanCPs cSq (p :: ps)
      = (List.foldl pickBest p (ps.takeWhile (aboveB cSq))).1
          :: scanCPs cSq (ps.dropWhile (aboveB cSq)) := by
  rw [scanCPs, if_pos hp, inRun_eq]

theorem scanCPs_cons_neg (cSq : ℚ) (p : ℚ × FilterValue)
    (ps : List (ℚ × FilterValue)) (hp : aboveB cSq p = false) :
    scanCPs cSq (p :: ps) = scanCPs cSq ps := by
  rw [scanCPs, if_neg (by simp [hp])]

theorem foldl_pickBest_mem (l : List (ℚ × FilterValue)) :
    ∀ a, List.foldl pickBest a l ∈ a :: l := by
  induction l with
  | nil => intro a; simp
  | cons x xs ih =>
    intro a
    rw [List.foldl_cons]
    rcases List.mem_cons.mp (ih (pickBest a x)) with h1 | h1
    · rw [h1]
      unfold pickBest
      by_cases hc : absSq a.2 < absSq x.2 <;> simp [hc]
    · exact List.mem_cons_of_mem _ (List.mem_cons_of_mem _ h1)

theorem foldl_pickBest_le (l : List (ℚ × FilterValue)) :
    ∀ a, ∀ x ∈ a :: l, absSq x.2 ≤ absSq (List.foldl pickBest a l).2 := by
  induction l with
  | nil =>
    intro a x hx
    rw [List.mem_singleton] at hx
    rw [hx, List.foldl_nil]
  | cons y ys ih =>
    intro a x hx
    rw [List.foldl_cons]
    have hstep : ∀ z : ℚ × FilterValue, z = a ∨ z = y →
        absSq z.2 ≤ absSq (pickBest a y).2 := by
      intro z hz
      unfold pickBest
      by_cases hc : absSq a.2 < absSq y.2
      · rw [if_pos hc]
        rcases hz with hz | hz <;> subst hz
        · exact le_of_lt hc
        · exact le_refl _
      · rw [if_neg hc]
        rcases hz with hz | hz <;> subst hz
        · exact le_refl _
        · exact le_of_not_lt hc
    rcases List.mem_cons.mp hx with h1 | h1
    · have h2 := hstep x (Or.inl h1)
      have h3 := ih (pickBest a y) _ (List.mem_cons_self _ _)
      linarith
    · rcases List.mem_cons.mp h1 with h2 | h2
      · have h2' := hstep x (Or.inr h2)
        have h3 := ih (pickBest a y) _ (List.mem_cons_self _ _)
        linarith
      · exact ih (pickBest a y) x (List.mem_cons_of_mem _ h2)

theorem scanCPs_sound_aux (cSq : ℚ) : ∀ (n : ℕ) (l : List (ℚ × FilterValue)),
    l.length ≤ n → ∀ t ∈ scanCPs cSq l,
      ∃ v, (t, v) ∈ l ∧ aboveB cSq (t, v) = true := by
  intro n
  induction n with
  | zero =>
    intro l hl t ht
    rw [List.length_eq_zero.mp (Nat.le_zero.mp hl), scanCPs_nil] at ht
    cases ht
  | succ n ih =>
    intro l hl t ht
    match l with
    | [] => rw [scanCPs_nil] at ht; cases ht
    | p :: ps =>
      by_cases hp : aboveB cSq p = true
      · rw [scanCPs_cons_pos cSq p ps hp] at ht
        rcases List.mem_cons.mp ht with h1 | h1
        · have hmem : List.foldl pickBest p (ps.takeWhile (aboveB cSq))
              ∈ p :: ps.takeWhile (aboveB cSq) := foldl_pickBest_mem _ p
          have habove : aboveB cSq (List.foldl pickBest p (ps.takeWhile (aboveB cSq)))
              = true := by
            rcases List.mem_cons.mp hmem with h2 | h2
            · rw [h2]; exact hp
            · exact List.mem_takeWhile_imp h2
          have hmem' : List.foldl pickBest p (ps.takeWhile (aboveB cSq)) ∈ p :: ps := by
            rcases List.mem_cons.mp hmem with h2 | h2
            · rw [h2]; exact List.mem_cons_self _ _
            · exact List.mem_cons_of_mem _ ((List.takeWhile_sublist _).subset h2)
          refine ⟨(List.foldl pickBest p (ps.takeWhile (aboveB cSq))).2, ?_, ?_⟩
          · rw [h1]; simpa using hmem'
          · rw [h1]; simpa using habove
        · have hlen : (ps.dropWhile (aboveB cSq)).length ≤ n := by
            have h2 := (List.dropWhile_sublist (p := aboveB cSq) (l := ps)).length_le
            simp only [List.length_cons] at hl
            omega
          obtain ⟨v, hv1, hv2⟩ := ih _ hlen t h1
          exact ⟨v, List.mem_cons_of_mem _ ((List.dropWhile_sublist _).subset hv1), hv2⟩
      · rw [scanCPs_cons_neg cSq p ps (Bool.not_eq_true _ |>.mp hp)] at ht
        have hlen : ps.length ≤ n := by
          simp only [List.length_cons] at hl
          omega
        obtain ⟨v, hv1, hv2⟩ := ih ps hlen t ht
        exact ⟨v, List.mem_cons_of_mem _ hv1, hv2⟩

theorem scanCPs_sound (cSq : ℚ) (l : List (ℚ × FilterValue)) :
    ∀ t ∈ scanCPs cSq l, ∃ v, (t, v) ∈ l ∧ aboveB cSq (t, v) = true :=
  scanCPs_sound_aux cSq l.length l le_rfl

/-- C6, amended: a half-window with fewer than two events makes the
statistic exactly `0` (a finite value, by design of the in-repository
fixtures), and the scanner and detector treat that candidate time as never
crossing any nonnegative threshold: it is never emitted as a change point
and never causes a fault. -/
theorem c6_amended (spk : List ℚ) (t h cSq T dt : ℚ)
    (hdeg : (windowEvents spk t (t + h)).length < 2
      ∨ (windowEvents spk (t - h) t).length < 2)
    (hc : 0 ≤ cSq) :
    statistic spk t h = ⟨0, 1⟩ ∧
      aboveB cSq (t, statistic spk t h) = false ∧
      t ∉ scanCPs cSq (_filter_process dt h spk T) := by
  have hstat : statistic spk t h = ⟨0, 1⟩ := by
    unfold statistic
    rw [if_pos hdeg]
  have habs : absSq (statistic spk t h) = 0 := by
    rw [hstat]
    simp [absSq]
  have habove : aboveB cSq (t, statistic spk t h) = false := by
    simp only [aboveB, habs, decide_eq_false_iff_not]
    intro hcontra
    linarith
  refine ⟨hstat, habove, ?_⟩
  intro hmem
  obtain ⟨v, hv1, hv2⟩ := scanCPs_sound cSq _ t hmem
  have hv : v = statistic spk t h := by
    unfold _filter_process scan at hv1
    obtain ⟨s, _, heq⟩ := List.mem_map.mp hv1
    obtain ⟨hs1, hs2⟩ := Prod.mk.injEq .. ▸ heq
    rw [← hs2, hs1]
  rw [hv, habove] at hv2
  cases hv2

/-- Witness for `c6_amended` at the degenerate `FilterTestCase` input
(`t = 0.8 s`, `h = 0.25 s`) with a zero threshold. -/
theorem c6_amended_witness :
    statistic fixtureA (4/5) (1/4) = ⟨0, 1⟩ ∧
      aboveB 0 (4/5, statistic fixtureA (4/5) (1/4)) = false ∧
      (4/5 : ℚ) ∉ scanCPs 0 (_filter_process 1 (1/4) fixtureA 2) :=
  c6_amended fixtureA (4/5) (1/4) 0 2 1 (Or.inl (by with_unfolding_all decide))
    le_rfl

theorem absSq_nonneg (v : FilterValue) : 0 ≤ absSq v := by
  unfold absSq
  split
  · exact le_refl 0
  · next h => exact div_nonneg (by positivity) (le_of_lt (lt_of_not_le h))

theorem foldr_max_nonneg (l : List ℚ) : 0 ≤ l.foldr max 0 := by
  induction l with
  | nil => exact le_refl 0
  | cons x xs ih => exact le_trans ih (le_max_right x _)

theorem foldl_max_absSq (l : List (ℚ × FilterValue)) : ∀ (a : ℚ), 0 ≤ a →
    l.foldl (fun m p => max m (absSq p.2)) a
      = max a ((l.map fun p => absSq p.2).foldr max 0) := by
  induction l with
  | nil =>
    intro a ha
    rw [List.foldl_nil, List.map_nil, List.foldr_nil]
    exact (max_eq_left ha).symm
  | cons x xs ih =>
    intro a ha
    rw [List.foldl_cons, List.map_cons, List.foldr_cons,
      ih (max a (absSq x.2)) (le_trans ha (le_max_left _ _)), max_assoc]

theorem surrogateExtreme_acc (dt T : ℚ) (spk : List ℚ) :
    ∀ (ws : List ℚ) (acc : ℚ), 0 ≤ acc →
      ws.foldl (fun acc h =>
          (_filter_process dt h spk T).foldl (fun m p => max m (absSq p.2)) acc) acc
        = max acc ((ws.map fun h =>
            ((_filter_process dt h spk T).map fun p => absSq p.2).foldr max 0).foldr
              max 0) := by
  intro ws
  induction ws with
  | nil =>
    intro acc hacc
    rw [List.foldl_nil, List.map_nil, List.foldr_nil]
    exact (max_eq_left hacc).symm
  | cons h hs ih =>
    intro acc hacc
    have hin : (_filter_process dt h spk T).foldl (fun m p => max m (absSq p.2)) acc
        = max acc (((_filter_process dt h spk T).map fun p => absSq p.2).foldr max 0) :=
      foldl_max_absSq (_filter_process dt h spk T) acc hacc
    have hge : 0 ≤ max acc
        (((_filter_process dt h spk T).map fun p => absSq p.2).foldr max 0) :=
      le_trans hacc (le_max_left _ _)
    rw [List.foldl_cons, hin, ih _ hge, List.map_cons, List.foldr_cons, max_assoc]

theorem surrogateExtreme_eq (ws : List ℚ) (dt T : ℚ) (spk : List ℚ) :
    surrogateExtreme ws dt T spk
      = (ws.map fun h =>
          ((_filter_process dt h spk T).map fun p => absSq p.2).foldr max 0).foldr
            max 0 := by
  unfold surrogateExtreme
  rw [surrogateExtreme_acc dt T spk ws 0 (le_refl 0)]
  exact max_eq_right (foldr_max_nonneg _)

/-- C3: the critical value returned by the calibration equals the element at
index `ceil(nSurrogates * (1 - alpha/100)) - 1` of the ascending-sorted list
of per-surrogate global extrema, each surrogate's global extreme being the
maximum over all window widths of the maximum statistic magnitude over that
width's scanned grid (all magnitudes squared, the order-preserving rational
encoding of the float comparisons). -/
theorem c3_critical_value (windowWidths : List ℚ) (T alpha : ℚ) (nSurrogates : ℕ)
    (dt : ℚ) (draw : ℕ → List ℚ) (hn : 0 < nSurrogates) (ha0 : 0 ≤ alpha)
    (ha1 : alpha < 100) :
    ((⌈(nSurrogates : ℚ) * (1 - alpha / 100)⌉).toNat - 1 <
        (((List.range nSurrogates).map fun i =>
          (windowWidths.map fun h =>
            ((_filter_process dt h (draw i) T).map fun p => absSq p.2).foldr max 0).foldr
              max 0).mergeSort fun a b => decide (a ≤ b)).length) ∧
      calibrate windowWidths T alpha nSurrogates dt draw
        = (((List.range nSurrogates).map fun i =>
            (windowWidths.map fun h =>
              ((_filter_process dt h (draw i) T).map fun p => absSq p.2).foldr max 0).foldr
                max 0).mergeSort fun a b => decide (a ≤ b)).getD
            ((⌈(nSurrogates : ℚ) * (1 - alpha / 100)⌉).toNat - 1) 0 := by
  have hval : (0 : ℚ) < (nSurrogates : ℚ) * (1 - alpha / 100) := by
    apply mul_pos
    · exact_mod_cast hn
    · linarith
  have hc1 : 1 ≤ ⌈(nSurrogates : ℚ) * (1 - alpha / 100)⌉ := Int.ceil_pos.mpr hval
  have hcn : ⌈(nSurrogates : ℚ) * (1 - alpha / 100)⌉ ≤ (nSurrogates : ℤ) := by
    rw [Int.ceil_le]
    push_cast
    nlinarith [Nat.cast_nonneg (α := ℚ) nSurrogates]
  have hidx : (⌈(nSurrogates : ℚ) * (1 - alpha / 100)⌉).toNat - 1 < nSurrogates := by
    omega
  have hmap : ((List.range nSurrogates).map fun i =>
        surrogateExtreme windowWidths dt T (draw i))
      = (List.range nSurrogates).map fun i =>
        (windowWidths.map fun h =>
          ((_filter_process dt h (draw i) T).map fun p => absSq p.2).foldr max 0).foldr
            max 0 :=
    List.map_congr_left fun i _ => surrogateExtreme_eq windowWidths dt T (draw i)
  constructor
  · rw [List.length_mergeSort, List.length_map, List.length_range]
    exact hidx
  · simp only [calibrate]
    rw [hmap]

/-- Witness for `c3_critical_value`: two surrogates at significance `50`,
where the rank formula selects index `0` of the sorted extrema. -/
theorem c3_critical_value_witness :
    ((⌈((2 : ℕ) : ℚ) * (1 - 50 / 100)⌉).toNat - 1 <
        (((List.range 2).map fun i =>
          (([1/2] : List ℚ).map fun h =>
            ((_filter_process (3/10) h
              ((fun i => if i = 0 then ([] : List ℚ) else fixtureA) i) 2).map
                fun p => absSq p.2).foldr max 0).foldr
              max 0).mergeSort fun a b => decide (a ≤ b)).length) ∧
      calibrate [1/2] 2 50 2 (3/10) (fun i => if i = 0 then [] else fixtureA)
        = (((List.range 2).map fun i =>
            (([1/2] : List ℚ).map fun h =>
              ((_filter_process (3/10) h
                ((fun i => if i = 0 then ([] : List ℚ) else fixtureA) i) 2).map
                  fun p => absSq p.2).foldr max 0).foldr
                max 0).mergeSort fun a b => decide (a ≤ b)).getD
            ((⌈((2 : ℕ) : ℚ) * (1 - 50 / 100)⌉).toNat - 1) 0 :=
  c3_critical_value [1/2] 2 50 2 (3/10) (fun i => if i = 0 then [] else fixtureA)
    (by norm_num) (by norm_num) (by norm_num)

theorem head_dropWhile_false {α : Type} (b : α → Bool) (l : List α) :
    ∀ q ∈ (l.dropWhile b).head?, b q = false := by
  intro q hq
  have h := List.head?_dropWhile_not b l
  cases hh : (l.dropWhile b).head? with
  | none => rw [hh] at hq; cases hq
  | some x =>
    rw [hh] at hq h
    rw [Option.mem_def] at hq
    injection hq with hqx
    subst hqx
    simpa using h

theorem takeWhile_of_append {α : Type} (b : α → Bool) (xs ys : List α)
    (hxs : ∀ x ∈ xs, b x = true) (hys : ∀ y ∈ ys.head?, b y = false) :
    (xs ++ ys).takeWhile b = xs ∧ (xs ++ ys).dropWhile b = ys := by
  induction xs with
  | nil =>
    rw [List.nil_append]
    cases ys with
    | nil => exact ⟨rfl, rfl⟩
    | cons y ys' =>
      have hy : b y = false := hys y rfl
      rw [List.takeWhile_cons, List.dropWhile_cons, hy]
      exact ⟨rfl, rfl⟩
  | cons x xs ih =>
    have hx : b x = true := hxs x (List.mem_cons_self _ _)
    have ih' := ih fun z hz => hxs z (List.mem_cons_of_mem _ hz)
    rw [List.cons_append, List.takeWhile_cons, List.dropWhile_cons, hx]
    simp only [ih'.1, ih'.2]
    exact ⟨rfl, rfl⟩

theorem dropWhile_ne_nil_of_last {α : Type} (b : α → Bool) (l : List α) (x : α)
    (hx : l.getLast? = some x) (hbx : b x = false) : l.dropWhile b ≠ [] := by
  intro hcontra
  have hall := List.dropWhile_eq_nil_iff.mp hcontra
  have hmem : x ∈ l := by
    cases l with
    | nil => cases hx
    | cons a l' =>
      have := List.getLast?_eq_getLast (a :: l') (by simp)
      rw [this] at hx
      injection hx with hx'
      rw [← hx']
      exact List.getLast_mem _
  rw [hall x hmem] at hbx
  cases hbx

theorem getLast?_append_of_ne {α : Type} (t rest : List α) (x : α)
    (hx : rest.getLast? = some x) : (t ++ rest).getLast? = some x := by
  rw [List.getLast?_append, hx, Option.or_some]

theorem timeGrid_sorted (T h dt : ℚ) : (timeGrid T h dt).Pairwise (· < ·) := by
  unfold timeGrid gridCount
  split
  · simp
  · next hcond =>
    have hdt : 0 < dt := lt_of_not_le fun hle => hcond (Or.inl hle)
    rw [List.pairwise_map]
    apply (List.pairwise_lt_range _).imp
    intro a b hab
    have hab' : (a : ℚ) < b := by exact_mod_cast hab
    have := mul_lt_mul_of_pos_right hab' hdt
    linarith

theorem filter_process_times (dt h : ℚ) (spk : List ℚ) (T : ℚ) :
    (_filter_process dt h spk T).map Prod.fst = timeGrid T h dt := by
  unfold _filter_process scan
  have hcomp : (Prod.fst ∘ fun t => (t, statistic spk t h)) = id := rfl
  rw [List.map_map, hcomp, List.map_id]

theorem filter_process_sorted (dt h : ℚ) (spk : List ℚ) (T : ℚ) :
    ((_filter_process dt h spk T).map Prod.fst).Pairwise (· < ·) := by
  rw [filter_process_times]
  exact timeGrid_sorted T h dt

theorem filter_process_nodup (dt h : ℚ) (spk : List ℚ) (T : ℚ) :
    ((_filter_process dt h spk T).map Prod.fst).Nodup :=
  (filter_process_sorted dt h spk T).nodup

theorem scanCPs_sorted_aux (cSq : ℚ) : ∀ (n : ℕ) (l : List (ℚ × FilterValue)),
    l.length ≤ n → ((l.map Prod.fst).Pairwise (· < ·)) →
      (scanCPs cSq l).Pairwise (· < ·) := by
  intro n
  induction n with
  | zero =>
    intro l hl _
    rw [List.length_eq_zero.mp (Nat.le_zero.mp hl), scanCPs_nil]
    exact List.Pairwise.nil
  | succ n ih =>
    intro l hl hsort
    match l with
    | [] => rw [scanCPs_nil]; exact List.Pairwise.nil
    | p :: ps =>
      by_cases hp : aboveB cSq p = true
      · rw [scanCPs_cons_pos cSq p ps hp]
        have hdecomp : p :: ps
            = (p :: ps.takeWhile (aboveB cSq)) ++ ps.dropWhile (aboveB cSq) := by
          rw [List.cons_append, List.takeWhile_append_dropWhile]
        rw [hdecomp, List.map_append, List.pairwise_append] at hsort
        constructor
        · intro t' ht'
          obtain ⟨v, hv1, _⟩ := scanCPs_sound cSq _ t' ht'
          have hbmem : List.foldl pickBest p (ps.takeWhile (aboveB cSq))
              ∈ p :: ps.takeWhile (aboveB cSq) := foldl_pickBest_mem _ p
          exact hsort.2.2 _ (List.mem_map_of_mem _ hbmem) t'
            (by simpa using List.mem_map_of_mem Prod.fst hv1)
        · apply ih _ ?_ hsort.2.1
          have h2 := (List.dropWhile_sublist (p := aboveB cSq) (l := ps)).length_le
          simp only [List.length_cons] at hl
          omega
      · rw [scanCPs_cons_neg cSq p ps (Bool.not_eq_true _ |>.mp hp)]
        apply ih ps ?_ ?_
        · simp only [List.length_cons] at hl
          omega
        · rw [List.map_cons, List.pairwise_cons] at hsort
          exact hsort.2

theorem scanCPs_sorted (cSq : ℚ) (l : List (ℚ × FilterValue))
    (hsort : (l.map Prod.fst).Pairwise (· < ·)) :
    (scanCPs cSq l).Pairwise (· < ·) :=
  scanCPs_sorted_aux cSq l.length l le_rfl hsort

theorem isMaxRun_cons_of_below (cSq : ℚ) (p : ℚ × FilterValue)
    (ps run : List (ℚ × FilterValue)) (hp : aboveB cSq p = false)
    (h : IsMaxRun cSq ps run) : IsMaxRun cSq (p :: ps) run := by
  obtain ⟨hne, hab, pre, post, hdec, hpre, hpost⟩ := h
  refine ⟨hne, hab, p :: pre, post,
    by rw [hdec]; simp [List.cons_append, List.append_assoc], ?_, hpost⟩
  intro q hq
  cases pre with
  | nil =>
    rw [List.getLast?_singleton, Option.mem_def] at hq
    injection hq with hq'
    rw [← hq']
    exact hp
  | cons x xs =>
    rw [List.getLast?_cons_cons] at hq
    exact hpre q hq

theorem isMaxRun_of_cons_below (cSq : ℚ) (p : ℚ × FilterValue)
    (ps run : List (ℚ × FilterValue)) (hp : aboveB cSq p = false)
    (h : IsMaxRun cSq (p :: ps) run) : IsMaxRun cSq ps run := by
  obtain ⟨hne, hab, pre, post, hdec, hpre, hpost⟩ := h
  cases pre with
  | nil =>
    rw [List.nil_append] at hdec
    cases run with
    | nil => exact absurd rfl hne
    | cons r rs =>
      rw [List.cons_append] at hdec
      injection hdec with h1 h2
      rw [h1] at hp
      rw [hab r (List.mem_cons_self _ _)] at hp
      cases hp
  | cons q pre₂ =>
    rw [List.cons_append] at hdec
    injection hdec with h1 h2
    refine ⟨hne, hab, pre₂, post, h2, ?_, hpost⟩
    intro x hx
    cases pre₂ with
    | nil => simp at hx
    | cons y ys =>
      apply hpre
      rw [List.getLast?_cons_cons]
      exact hx

theorem isMaxRun_append_left (cSq : ℚ) (xs dw run : List (ℚ × FilterValue))
    (hhead : ∀ q ∈ dw.head?, aboveB cSq q = false)
    (h : IsMaxRun cSq dw run) : IsMaxRun cSq (xs ++ dw) run := by
  obtain ⟨hne, hab, pre, post, hdec, hpre, hpost⟩ := h
  have hpre_ne : pre ≠ [] := by
    intro hnil
    subst hnil
    rw [List.nil_append] at hdec
    cases run with
    | nil => exact hne rfl
    | cons r rs =>
      have hh : dw.head? = some r := by rw [hdec]; rfl
      have hr := hhead r (by rw [hh]; rfl)
      rw [hab r (List.mem_cons_self _ _)] at hr
      cases hr
  obtain ⟨x, hx⟩ := Option.isSome_iff_exists.mp (List.getLast?_isSome.mpr hpre_ne)
  refine ⟨hne, hab, xs ++ pre, post, ?_, ?_, hpost⟩
  · rw [hdec]
    simp [List.append_assoc]
  · intro q hq
    rw [getLast?_append_of_ne xs pre x hx, Option.mem_def] at hq
    injection hq with hq'
    rw [← hq']
    exact hpre x (Option.mem_def.mpr hx)

theorem scanCPs_cover_aux (cSq : ℚ) : ∀ (n : ℕ) (l : List (ℚ × FilterValue)),
    l.length ≤ n → ∀ t ∈ scanCPs cSq l,
      ∃ run, IsMaxRun cSq l run ∧
        ∃ v, (t, v) ∈ run ∧ ∀ q ∈ run, absSq q.2 ≤ absSq v := by
  intro n
  induction n with
  | zero =>
    intro l hl t ht
    rw [List.length_eq_zero.mp (Nat.le_zero.mp hl), scanCPs_nil] at ht
    cases ht
  | succ n ih =>
    intro l hl t ht
    match l with
    | [] => rw [scanCPs_nil] at ht; cases ht
    | p :: ps =>
      by_cases hp : aboveB cSq p = true
      · rw [scanCPs_cons_pos cSq p ps hp] at ht
        rcases List.mem_cons.mp ht with h1 | h1
        · refine ⟨p :: ps.takeWhile (aboveB cSq), ?_, ?_⟩
          · refine ⟨List.cons_ne_nil _ _, ?_, [], ps.dropWhile (aboveB cSq), ?_, ?_, ?_⟩
            · intro q hq
              rcases List.mem_cons.mp hq with hq | hq
              · rw [hq]; exact hp
              · exact List.mem_takeWhile_imp hq
            · rw [List.nil_append, List.cons_append, List.takeWhile_append_dropWhile]
            · intro q hq
              simp at hq
            · exact head_dropWhile_false _ _
          · refine ⟨(List.foldl pickBest p (ps.takeWhile (aboveB cSq))).2, ?_, ?_⟩
            · rw [h1]
              simpa using foldl_pickBest_mem (ps.takeWhile (aboveB cSq)) p
            · exact foldl_pickBest_le _ p
        · have hlen : (ps.dropWhile (aboveB cSq)).length ≤ n := by
            have h2 := (List.dropWhile_sublist (p := aboveB cSq) (l := ps)).length_le
            simp only [List.length_cons] at hl
            omega
          obtain ⟨run, hrun, v, hv1, hv2⟩ := ih _ hlen t h1
          refine ⟨run, ?_, v, hv1, hv2⟩
          have hdecomp : p :: ps
              = (p :: ps.takeWhile (aboveB cSq)) ++ ps.dropWhile (aboveB cSq) := by
            rw [List.cons_append, List.takeWhile_append_dropWhile]
          rw [hdecomp]
          exact isMaxRun_append_left cSq _ _ run (head_dropWhile_false _ _) hrun
      · rw [scanCPs_cons_neg cSq p ps (Bool.not_eq_true _ |>.mp hp)] at ht
        have hlen : ps.length ≤ n := by
          simp only [List.length_cons] at hl
          omega
        obtain ⟨run, hrun, hv⟩ := ih ps hlen t ht
        exact ⟨run,
          isMaxRun_cons_of_below cSq p ps run (Bool.not_eq_true _ |>.mp hp) hrun, hv⟩

theorem scanCPs_cover (cSq : ℚ) (l : List (ℚ × FilterValue)) :
    ∀ t ∈ scanCPs cSq l, ∃ run, IsMaxRun cSq l run ∧
      ∃ v, (t, v) ∈ run ∧ ∀ q ∈ run, absSq q.2 ≤ absSq v :=
  scanCPs_cover_aux cSq l.length l le_rfl

theorem scanCPs_exact_aux (cSq : ℚ) : ∀ (n : ℕ) (l : List (ℚ × FilterValue)),
    l.length ≤ n → (l.map Prod.fst).Nodup →
      ∀ run, IsMaxRun cSq l run →
        ∃ tb vb, (tb, vb) ∈ run ∧ (∀ q ∈ run, absSq q.2 ≤ absSq vb) ∧
          (scanCPs cSq l).filter (fun s => decide (s ∈ run.map Prod.fst)) = [tb] := by
  intro n
  induction n with
  | zero =>
    intro l hl _ run hrun
    obtain ⟨hne, _, pre, post, hdec, _, _⟩ := hrun
    rw [List.length_eq_zero.mp (Nat.le_zero.mp hl)] at hdec
    obtain ⟨h1, _⟩ := List.append_eq_nil.mp hdec.symm
    exact absurd (List.append_eq_nil.mp h1).2 hne
  | succ n ih =>
    intro l hl hnd run hrun
    match l with
    | [] =>
      obtain ⟨hne, _, pre, post, hdec, _, _⟩ := hrun
      obtain ⟨h1, _⟩ := List.append_eq_nil.mp hdec.symm
      exact absurd (List.append_eq_nil.mp h1).2 hne
    | p :: ps =>
      by_cases hp : aboveB cSq p = true
      · have hdecomp : p :: ps
            = (p :: ps.takeWhile (aboveB cSq)) ++ ps.dropWhile (aboveB cSq) := by
          rw [List.cons_append, List.takeWhile_append_dropWhile]
        have hnd' := hnd
        rw [hdecomp, List.map_append, List.nodup_append] at hnd'
        have hlen_dw : (ps.dropWhile (aboveB cSq)).length ≤ n := by
          have h2 := (List.dropWhile_sublist (p := aboveB cSq) (l := ps)).length_le
          simp only [List.length_cons] at hl
          omega
        obtain ⟨hne, hab, pre, post, hdec, hpre, hpost⟩ := hrun
        cases pre with
        | nil =>
          rw [List.nil_append] at hdec
          have htake := takeWhile_of_append (aboveB cSq) run post hab hpost
          have htcons : (p :: ps).takeWhile (aboveB cSq)
              = p :: ps.takeWhile (aboveB cSq) := by
            rw [List.takeWhile_cons, if_pos hp]
          have hrun_eq : run = p :: ps.takeWhile (aboveB cSq) := by
            rw [← htcons, hdec]
            exact htake.1.symm
          subst hrun_eq
          refine ⟨(List.foldl pickBest p (ps.takeWhile (aboveB cSq))).1,
            (List.foldl pickBest p (ps.takeWhile (aboveB cSq))).2, ?_, ?_, ?_⟩
          · simpa using foldl_pickBest_mem (ps.takeWhile (aboveB cSq)) p
          · exact foldl_pickBest_le (ps.takeWhile (aboveB cSq)) p
          · rw [scanCPs_cons_pos cSq p ps hp, List.filter_cons]
            have hbt_mem : (List.foldl pickBest p (ps.takeWhile (aboveB cSq))).1
                ∈ (p :: ps.takeWhile (aboveB cSq)).map Prod.fst :=
              List.mem_map_of_mem _ (foldl_pickBest_mem (ps.takeWhile (aboveB cSq)) p)
            rw [if_pos (by simpa using decide_eq_true hbt_mem)]
            have hnil : (scanCPs cSq (ps.dropWhile (aboveB cSq))).filter
                (fun s => decide
                  (s ∈ (p :: ps.takeWhile (aboveB cSq)).map Prod.fst)) = [] := by
              rw [List.filter_eq_nil_iff]
              intro s hs
              obtain ⟨v, hv1, _⟩ := scanCPs_sound cSq _ s hs
              have hsdw : s ∈ (ps.dropWhile (aboveB cSq)).map Prod.fst := by
                simpa using List.mem_map_of_mem Prod.fst hv1
              simp only [decide_eq_true_eq]
              intro hcontra
              exact hnd'.2.2 hcontra hsdw
            rw [hnil]
        | cons q pre₂ =>
          simp only [List.cons_append] at hdec
          injection hdec with h1 h2
          have hpre₂_ne : pre₂ ≠ [] := by
            intro hnil
            subst hnil
            have hq := hpre q (by rw [List.getLast?_singleton]; rfl)
            rw [← h1] at hq
            rw [hp] at hq
            cases hq
          obtain ⟨x, hx⟩ :=
            Option.isSome_iff_exists.mp (List.getLast?_isSome.mpr hpre₂_ne)
          have hxlast : (q :: pre₂).getLast? = some x := by
            cases pre₂ with
            | nil => exact absurd rfl hpre₂_ne
            | cons y ys => rw [List.getLast?_cons_cons]; exact hx
          have hxfalse : aboveB cSq x = false := hpre x (Option.mem_def.mpr hxlast)
          have hrest_ne : pre₂.dropWhile (aboveB cSq) ≠ [] :=
            dropWhile_ne_nil_of_last _ pre₂ x hx hxfalse
          have hdw_eq : ps.dropWhile (aboveB cSq)
              = pre₂.dropWhile (aboveB cSq) ++ (run ++ post) := by
            rw [h2, List.append_assoc, List.dropWhile_append,
              if_neg (by simp [hrest_ne])]
          have hrest_last : (pre₂.dropWhile (aboveB cSq)).getLast? = some x := by
            obtain ⟨tpre, htpre⟩ := List.dropWhile_suffix (l := pre₂) (aboveB cSq)
            rw [← htpre] at hx
            obtain ⟨y, hy⟩ :=
              Option.isSome_iff_exists.mp (List.getLast?_isSome.mpr hrest_ne)
            rw [List.getLast?_append, hy, Option.or_some] at hx
            injection hx with hyx
            rw [hy, hyx]
          have hrun_dw : IsMaxRun cSq (ps.dropWhile (aboveB cSq)) run := by
            refine ⟨hne, hab, pre₂.dropWhile (aboveB cSq), post,
              by rw [hdw_eq, List.append_assoc], ?_, hpost⟩
            intro q' hq'
            rw [hrest_last, Option.mem_def] at hq'
            injection hq' with hq''
            rw [← hq'']
            exact hxfalse
          obtain ⟨tb, vb, h1', h2', h3'⟩ :=
            ih (ps.dropWhile (aboveB cSq)) hlen_dw hnd'.2.1 run hrun_dw
          refine ⟨tb, vb, h1', h2', ?_⟩
          rw [scanCPs_cons_pos cSq p ps hp, List.filter_cons]
          have hbt_notmem : (List.foldl pickBest p (ps.takeWhile (aboveB cSq))).1
              ∉ run.map Prod.fst := by
            intro hcontra
            have hrun_sub : run.map Prod.fst ⊆ (ps.dropWhile (aboveB cSq)).map Prod.fst := by
              intro a ha
              rw [hdw_eq]
              rw [List.map_append]
              apply List.mem_append_right
              rw [List.map_append]
              exact List.mem_append_left _ ha
            have hbt_first : (List.foldl pickBest p (ps.takeWhile (aboveB cSq))).1
                ∈ (p :: ps.takeWhile (aboveB cSq)).map Prod.fst :=
              List.mem_map_of_mem _ (foldl_pickBest_mem (ps.takeWhile (aboveB cSq)) p)
            exact hnd'.2.2 hbt_first (hrun_sub hcontra)
          rw [if_neg (by simpa using hbt_notmem), h3']
      · have hp' := Bool.not_eq_true _ |>.mp hp
        have hrun' := isMaxRun_of_cons_below cSq p ps run hp' hrun
        have hnd' : (ps.map Prod.fst).Nodup := by
          rw [List.map_cons, List.nodup_cons] at hnd
          exact hnd.2
        have hlen : ps.length ≤ n := by
          simp only [List.length_cons] at hl
          omega
        obtain ⟨tb, vb, h1, h2, h3⟩ := ih ps hlen hnd' run hrun'
        refine ⟨tb, vb, h1, h2, ?_⟩
        rw [scanCPs_cons_neg cSq p ps hp']
        exact h3

theorem scanCPs_exact (cSq : ℚ) (l : List (ℚ × FilterValue))
    (hnd : (l.map Prod.fst).Nodup) :
    ∀ run, IsMaxRun cSq l run →
      ∃ tb vb, (tb, vb) ∈ run ∧ (∀ q ∈ run, absSq q.2 ≤ absSq vb) ∧
        (scanCPs cSq l).filter (fun s => decide (s ∈ run.map Prod.fst)) = [tb] :=
  scanCPs_exact_aux cSq l.length l le_rfl hnd

/-- C4: every detect call returns one ordered (strictly increasing) list of
change-point times per tested window width, computed per width and never
merged across widths; within each width, every maximal contiguous run of
grid times whose statistic magnitude exceeds the critical value contributes
exactly one change point, placed at the time of the extremum of the
statistic within that run, and every emitted change point lies in such a
maximal run at its extremum. -/
theorem c4_detect_runs (windowWidths spk : List ℚ) (T alpha : ℚ)
    (nSurrogates : ℕ) (dt : ℚ) (draw : ℕ → List ℚ) :
    (multiple_filter_test windowWidths spk T alpha nSurrogates dt draw).length
        = windowWidths.length ∧
      multiple_filter_test windowWidths spk T alpha nSurrogates dt draw
        = windowWidths.map (fun h =>
            scanCPs (calibrate windowWidths T alpha nSurrogates dt draw)
              (_filter_process dt h spk T)) ∧
      ∀ h ∈ windowWidths,
        (scanCPs (calibrate windowWidths T alpha nSurrogates dt draw)
            (_filter_process dt h spk T)).Pairwise (· < ·) ∧
          (∀ t ∈ scanCPs (calibrate windowWidths T alpha nSurrogates dt draw)
              (_filter_process dt h spk T),
            ∃ run, IsMaxRun (calibrate windowWidths T alpha nSurrogates dt draw)
                (_filter_process dt h spk T) run ∧
              ∃ v, (t, v) ∈ run ∧ ∀ q ∈ run, absSq q.2 ≤ absSq v) ∧
          ∀ run, IsMaxRun (calibrate windowWidths T alpha nSurrogates dt draw)
              (_filter_process dt h spk T) run →
            ∃ tb vb, (tb, vb) ∈ run ∧ (∀ q ∈ run, absSq q.2 ≤ absSq vb) ∧
              (scanCPs (calibrate windowWidths T alpha nSurrogates dt draw)
                  (_filter_process dt h spk T)).filter
                (fun s => decide (s ∈ run.map Prod.fst)) = [tb] := by
  refine ⟨?_, ?_, ?_⟩
  · simp [multiple_filter_test]
  · rfl
  · intro h _
    refine ⟨?_, ?_, ?_⟩
    · exact scanCPs_sorted _ _ (filter_process_sorted dt h spk T)
    · exact scanCPs_cover _ _
    · exact scanCPs_exact _ _ (filter_process_nodup dt h spk T)

/-- Witness for `c4_detect_runs`: the `FilterTestCase` events with a single
window width `0.5 s`, grid step `0.3 s`, zero surrogates (critical value
`0`): the process is below, above, above, below; its single maximal run
spans `t = 0.8 s` and `t = 1.1 s` and contributes exactly the one change
point `t = 1.1 s`, the extremum of the run. -/
theorem c4_detect_runs_witness :
    ∃ tb vb,
      (tb, vb) ∈ [((4 : ℚ)/5, FilterValue.mk (-1) (125/54)),
          ((11 : ℚ)/10, FilterValue.mk (-1) (36/25))] ∧
        (∀ q ∈ [((4 : ℚ)/5, FilterValue.mk (-1) (125/54)),
            ((11 : ℚ)/10, FilterValue.mk (-1) (36/25))],
          absSq q.2 ≤ absSq vb) ∧
        (scanCPs (calibrate [1/2] 2 50 0 (3/10) (fun _ => []))
            (_filter_process (3/10) (1/2) fixtureA 2)).filter
          (fun s => decide
            (s ∈ ([((4 : ℚ)/5, FilterValue.mk (-1) (125/54)),
              ((11 : ℚ)/10, FilterValue.mk (-1) (36/25))]).map Prod.fst))
          = [tb] := by
  apply ((c4_detect_runs [1/2] fixtureA 2 50 0 (3/10) (fun _ => [])).2.2 (1/2)
    (List.mem_singleton.mpr rfl)).2.2
  refine ⟨by with_unfolding_all decide, by with_unfolding_all decide,
    [((1 : ℚ)/2, FilterValue.mk 0 1)], [((7 : ℚ)/5, FilterValue.mk 0 1)],
    by with_unfolding_all decide, ?_, ?_⟩
  · intro q hq
    simp only [List.getLast?_singleton, Option.mem_def] at hq
    injection hq with hq'
    rw [← hq']
    with_unfolding_all decide
  · intro q hq
    simp only [List.head?_cons, Option.mem_def] at hq
    injection hq with hq'
    rw [← hq']
    with_unfolding_all decide


set_option maxRecDepth 2000 in
theorem c2fix_grid : timeGrid (21/10) (1/2) (1/10)
    = [1/2, 3/5, 7/10, 4/5, 9/10, 1, 11/10, 6/5, 13/10, 7/5, 3/2, 8/5] := by
  with_unfolding_all decide

set_option maxRecDepth 2000 in
theorem c2fix_stat_zeros :
    statistic fixtureB (1/2) (1/2) = ⟨0, 1⟩ ∧
      statistic fixtureB (3/5) (1/2) = ⟨0, 1⟩ ∧
      statistic fixtureB (7/10) (1/2) = ⟨0, 1⟩ ∧
      statistic fixtureB (4/5) (1/2) = ⟨0, 1⟩ ∧
      statistic fixtureB (9/10) (1/2) = ⟨0, 1⟩ ∧
      statistic fixtureB 1 (1/2) = ⟨0, 1⟩ ∧
      statistic fixtureB (11/10) (1/2) = ⟨0, 1⟩ ∧
      statistic fixtureB (6/5) (1/2) = ⟨0, 1⟩ := by
  refine ⟨?_, ?_, ?_, ?_, ?_, ?_, ?_, ?_⟩ <;> with_unfolding_all decide

set_option maxRecDepth 2000 in
theorem c2fix_stat13 : statistic fixtureB (13/10) (1/2) = ⟨2, 60/49⟩ := by
  with_unfolding_all decide

set_option maxRecDepth 2000 in
theorem c2fix_stat14 : statistic fixtureB (7/5) (1/2) = ⟨4, 1700/729⟩ := by
  with_unfolding_all decide

set_option maxRecDepth 2000 in
theorem c2fix_windows :
    windowEvents fixtureB (3/2) (3/2 + 1/2)
        = [8/5, 17/10, 7/4, 9/5, 37/20, 19/10, 39/20] ∧
      windowEvents fixtureB (3/2 - 1/2) (3/2) = [11/10, 6/5, 7/5] ∧
      windowEvents fixtureB (8/5) (8/5 + 1/2)
        = [8/5, 17/10, 7/4, 9/5, 37/20, 19/10, 39/20] ∧
      windowEvents fixtureB (8/5 - 1/2) (8/5) = [11/10, 6/5, 7/5] := by
  refine ⟨?_, ?_, ?_, ?_⟩ <;> with_unfolding_all decide

set_option maxRecDepth 2000 in
theorem c2fix_isi :
    isiList [8/5, 17/10, 7/4, 9/5, 37/20, 19/10, 39/20]
        = [1/10, 1/20, 1/20, 1/20, 1/20, 1/20] ∧
      isiList [11/10, 6/5, 7/5] = [1/10, 1/5] := by
  refine ⟨?_, ?_⟩ <;> with_unfolding_all decide

theorem c2fix_mean_r : listMean [1/10, 1/20, 1/20, 1/20, 1/20, 1/20] = 7/120 := by
  unfold listMean
  norm_num [List.sum_cons, List.sum_nil]

theorem c2fix_var_r : listVar [1/10, 1/20, 1/20, 1/20, 1/20, 1/20] = 1/2880 := by
  unfold listVar listMean
  norm_num [List.map_cons, List.map_nil, List.sum_cons, List.sum_nil]

theorem c2fix_mean_l : listMean [1/10, 1/5] = 3/20 := by
  unfold listMean
  norm_num [List.sum_cons, List.sum_nil]

theorem c2fix_var_l : listVar [1/10, 1/5] = 1/400 := by
  unfold listVar listMean
  norm_num [List.map_cons, List.map_nil, List.sum_cons, List.sum_nil]

theorem c2fix_stat15 : statistic fixtureB (3/2) (1/2) = ⟨4, 11530/9261⟩ := by
  simp only [statistic]
  rw [c2fix_windows.1, c2fix_windows.2.1, c2fix_isi.1, c2fix_isi.2,
    c2fix_mean_r, c2fix_var_r, c2fix_mean_l, c2fix_var_l]
  norm_num

theorem c2fix_stat16 : statistic fixtureB (8/5) (1/2) = ⟨4, 11530/9261⟩ := by
  simp only [statistic]
  rw [c2fix_windows.2.2.1, c2fix_windows.2.2.2, c2fix_isi.1, c2fix_isi.2,
    c2fix_mean_r, c2fix_var_r, c2fix_mean_l, c2fix_var_l]
  norm_num

theorem c2fix_process : _filter_process (1/10) (1/2) fixtureB (21/10)
    = [(1/2, ⟨0, 1⟩), (3/5, ⟨0, 1⟩), (7/10, ⟨0, 1⟩), (4/5, ⟨0, 1⟩),
        (9/10, ⟨0, 1⟩), (1, ⟨0, 1⟩), (11/10, ⟨0, 1⟩), (6/5, ⟨0, 1⟩),
        (13/10, ⟨2, 60/49⟩), (7/5, ⟨4, 1700/729⟩), (3/2, ⟨4, 11530/9261⟩),
        (8/5, ⟨4, 11530/9261⟩)] := by
  unfold _filter_process scan
  rw [c2fix_grid]
  simp only [List.map_cons, List.map_nil, c2fix_stat_zeros.1, c2fix_stat_zeros.2.1,
    c2fix_stat_zeros.2.2.1, c2fix_stat_zeros.2.2.2.1, c2fix_stat_zeros.2.2.2.2.1,
    c2fix_stat_zeros.2.2.2.2.2.1, c2fix_stat_zeros.2.2.2.2.2.2.1,
    c2fix_stat_zeros.2.2.2.2.2.2.2, c2fix_stat13, c2fix_stat14, c2fix_stat15,
    c2fix_stat16]

theorem c2fix_abs :
    absSq (FilterValue.mk 0 1) = 0 ∧
      absSq (FilterValue.mk 2 (60/49)) = 49/15 ∧
      absSq (FilterValue.mk 4 (1700/729)) = 2916/425 ∧
      absSq (FilterValue.mk 4 (11530/9261)) = 74088/5765 := by
  refine ⟨?_, ?_, ?_, ?_⟩ <;> (simp only [absSq]; norm_num)

theorem c2fix_pb :
    pickBest (13/10, FilterValue.mk 2 (60/49)) (7/5, FilterValue.mk 4 (1700/729))
        = (7/5, FilterValue.mk 4 (1700/729)) ∧
      pickBest (7/5, FilterValue.mk 4 (1700/729))
          (3/2, FilterValue.mk 4 (11530/9261))
        = (3/2, FilterValue.mk 4 (11530/9261)) ∧
      pickBest (3/2, FilterValue.mk 4 (11530/9261))
          (8/5, FilterValue.mk 4 (11530/9261))
        = (3/2, FilterValue.mk 4 (11530/9261)) := by
  refine ⟨?_, ?_, ?_⟩
  · simp only [pickBest]
    rw [c2fix_abs.2.1, c2fix_abs.2.2.1, if_pos (by norm_num)]
  · simp only [pickBest]
    rw [c2fix_abs.2.2.1, c2fix_abs.2.2.2, if_pos (by norm_num)]
  · simp only [pickBest]
    rw [c2fix_abs.2.2.2, if_neg (by norm_num)]

/-- Supporting fact for the fixture of
`test_MultipleFilterAlgorithm_with_spiketrain_h05`: for every nonnegative
squared critical value below the process maximum `74088/5765`, the detector
on the `MultipleFilterAlgorithmTestCase` events with `h = 0.5 s`,
`T = 2.1 s`, `dt = 0.1 s` emits exactly one change point, at `t = 1.5 s`.
Whether the seeded Monte-Carlo calibration of the missing module lands in
that band cannot be derived from the available sources. -/
theorem c2_change_point_band (cSq : ℚ) (hc0 : 0 ≤ cSq)
    (hcs : cSq < 74088/5765) :
    scanCPs cSq (_filter_process (1/10) (1/2) fixtureB (21/10)) = [3/2] := by
  have hz : ∀ t : ℚ, aboveB cSq (t, FilterValue.mk 0 1) = false := by
    intro t
    simp only [aboveB, c2fix_abs.1, decide_eq_false_iff_not]
    intro hcontra
    linarith
  have hb11 : aboveB cSq (3/2, FilterValue.mk 4 (11530/9261)) = true := by
    simp only [aboveB, c2fix_abs.2.2.2]
    exact decide_eq_true hcs
  have hb12 : aboveB cSq (8/5, FilterValue.mk 4 (11530/9261)) = true := by
    simp only [aboveB, c2fix_abs.2.2.2]
    exact decide_eq_true hcs
  rw [c2fix_process, scanCPs_cons_neg _ _ _ (hz _), scanCPs_cons_neg _ _ _ (hz _),
    scanCPs_cons_neg _ _ _ (hz _), scanCPs_cons_neg _ _ _ (hz _),
    scanCPs_cons_neg _ _ _ (hz _), scanCPs_cons_neg _ _ _ (hz _),
    scanCPs_cons_neg _ _ _ (hz _), scanCPs_cons_neg _ _ _ (hz _)]
  by_cases h9 : cSq < 49/15
  · have hb9 : aboveB cSq (13/10, FilterValue.mk 2 (60/49)) = true := by
      simp only [aboveB, c2fix_abs.2.1]
      exact decide_eq_true h9
    have hb10 : aboveB cSq (7/5, FilterValue.mk 4 (1700/729)) = true := by
      simp only [aboveB, c2fix_abs.2.2.1]
      exact decide_eq_true (by linarith)
    have hfold : List.foldl pickBest (13/10, FilterValue.mk 2 (60/49))
        [(7/5, ⟨4, 1700/729⟩), (3/2, ⟨4, 11530/9261⟩), (8/5, ⟨4, 11530/9261⟩)]
          = (3/2, FilterValue.mk 4 (11530/9261)) := by
      rw [List.foldl_cons, c2fix_pb.1, List.foldl_cons, c2fix_pb.2.1,
        List.foldl_cons, c2fix_pb.2.2, List.foldl_nil]
    rw [scanCPs_cons_pos _ _ _ hb9, List.takeWhile_cons, if_pos hb10,
      List.takeWhile_cons, if_pos hb11, List.takeWhile_cons, if_pos hb12,
      List.takeWhile_nil, List.dropWhile_cons, if_pos hb10, List.dropWhile_cons,
      if_pos hb11, List.dropWhile_cons, if_pos hb12, List.dropWhile_nil, hfold,
      scanCPs_nil]
  · have hb9 : aboveB cSq (13/10, FilterValue.mk 2 (60/49)) = false := by
      simp only [aboveB, c2fix_abs.2.1]
      exact decide_eq_false h9
    rw [scanCPs_cons_neg _ _ _ hb9]
    by_cases h10 : cSq < 2916/425
    · have hb10 : aboveB cSq (7/5, FilterValue.mk 4 (1700/729)) = true := by
        simp only [aboveB, c2fix_abs.2.2.1]
        exact decide_eq_true h10
      have hfold : List.foldl pickBest (7/5, FilterValue.mk 4 (1700/729))
          [(3/2, ⟨4, 11530/9261⟩), (8/5, ⟨4, 11530/9261⟩)]
            = (3/2, FilterValue.mk 4 (11530/9261)) := by
        rw [List.foldl_cons, c2fix_pb.2.1, List.foldl_cons, c2fix_pb.2.2,
          List.foldl_nil]
      rw [scanCPs_cons_pos _ _ _ hb10, List.takeWhile_cons, if_pos hb11,
        List.takeWhile_cons, if_pos hb12, List.takeWhile_nil, List.dropWhile_cons,
        if_pos hb11, List.dropWhile_cons, if_pos hb12, List.dropWhile_nil, hfold,
        scanCPs_nil]
    · have hb10 : aboveB cSq (7/5, FilterValue.mk 4 (1700/729)) = false := by
        simp only [aboveB, c2fix_abs.2.2.1]
        exact decide_eq_false h10
      have hfold : List.foldl pickBest (3/2, FilterValue.mk 4 (11530/9261))
          [(8/5, ⟨4, 11530/9261⟩)] = (3/2, FilterValue.mk 4 (11530/9261)) := by
        rw [List.foldl_cons, c2fix_pb.2.2, List.foldl_nil]
      rw [scanCPs_cons_neg _ _ _ hb10, scanCPs_cons_pos _ _ _ hb11,
        List.takeWhile_cons, if_pos hb12, List.takeWhile_nil, List.dropWhile_cons,
        if_pos hb12, List.dropWhile_nil, hfold, scanCPs_nil]
